import Mathlib

/-!
Verification of the nearly-divisionless random integer generator
(ndl_rand in src/lib.rs) against its specification.

Machine integers are embedded as Nat (u64, u128) and Int (i64) with
explicit reduction modulo 2^64; the thread_rng source is modelled as a
scripted sequence of draws, and the while loop is fuel-indexed.
-/

/-- RandError, the unit error struct returned by ndl_rand. -/
inductive RandError
  | mk
  deriving DecidableEq

/-- The truncating cast from u128 to u64: keep the low 64 bits. -/
def cast_u128_to_u64 (r : Nat) : Nat := r &&& (2 ^ 64 - 1)

/-- Reinterpret a u64 bit pattern as an i64 value (the Rust cast max as i64). -/
def toI64 (x : Nat) : Int := if x < 2 ^ 63 then (x : Int) else (x : Int) - 2 ^ 64

/-- Wrap an integer into the i64 range, as release-mode Rust arithmetic does. -/
def wrapI64 (x : Int) : Int := (x + 2 ^ 63) % 2 ^ 64 - 2 ^ 63

/-- Rust unary minus on i64 (release mode: wrapping negation). -/
def i64Neg (x : Int) : Int := wrapI64 (-x)

/-- Rust rem operator on i64: remainder truncated toward zero. -/
def i64Rem (a b : Int) : Int := Int.tmod a b

/-- Reinterpret an i64 value as a u64 bit pattern (the Rust cast t as u64). -/
def toU64 (x : Int) : Nat := (x % 2 ^ 64).toNat

/-- The threshold t of ndl_rand, computed when the bias branch is entered:
the Rust expression -(max as i64) % (max as i64), viewed as u64. -/
def threshU64 (max : Nat) : Nat := toU64 (i64Rem (i64Neg (toI64 max)) (toI64 max))

/-- The i64 range predicate, for overflow analysis of the signed negation. -/
def i64InRange (x : Int) : Prop := -(2 ^ 63) ≤ x ∧ x < 2 ^ 63

instance (x : Int) : Decidable ( i64InRange x) := by
  unfold i64InRange
  exact inferInstance

/-- The while loop of ndl_rand, fuel-indexed. The state is the index i of the
next draw (equally, the number of samples drawn so far) and the current
128-bit dividend. Returns the final dividend together with the total number
of samples drawn, or none when the fuel runs out with the guard still true. -/
def ndl_loop (max t : Nat) (seq : Nat → Nat) : Nat → Nat → Nat → Option (Nat × Nat)
  | 0, i, rand_dividend =>
    if cast_u128_to_u64 rand_dividend < t then none else some (rand_dividend, i)
  | fuel + 1, i, rand_dividend =>
    if cast_u128_to_u64 rand_dividend < t then
      ndl_loop max t seq fuel (i + 1) ((seq i % 2 ^ 64) * max)
    else
      some (rand_dividend, i)

/-- ndl_rand from src/lib.rs, with thread_rng modelled as the scripted
sequence seq of draws (each reduced mod 2^64, being a u64). Returns the
result together with the number of samples drawn; none only when the loop
fuel runs out. -/
def ndl_rand (max : Nat) (seq : Nat → Nat) (fuel : Nat) :
    Option (Except RandError Nat × Nat) :=
  if max = 0 then some (Except.error RandError.mk, 0)
  else
    let rand_seed := seq 0 % 2 ^ 64
    let rand_dividend := rand_seed * max
    let rand_dividend_u64 := cast_u128_to_u64 rand_dividend
    if rand_dividend_u64 < max then
      match ndl_loop max (threshU64 max) seq fuel 1 rand_dividend with
      | none => none
      | some (d, i) => some (Except.ok (cast_u128_to_u64 (d >>> 64)), i)
    else
      some (Except.ok (cast_u128_to_u64 (rand_dividend >>> 64)), 1)

/-- Modelled from the spec (section 4.1, step 6): the rejection loop of the
specified algorithm, redrawing while low < threshold, where the threshold is
2^64 mod bound. Fuel-indexed like ndl_loop. -/
def spec_loop (bound threshold : Nat) (seq : Nat → Nat) :
    Nat → Nat → Nat → Nat → Option Nat
  | 0, _, low, high => if low < threshold then none else some high
  | fuel + 1, i, low, high =>
    if low < threshold then
      spec_loop bound threshold seq fuel (i + 1) (((seq i % 2 ^ 64) * bound) % 2 ^ 64)
        (((seq i % 2 ^ 64) * bound) / 2 ^ 64)
    else
      some high

/-- Modelled from the spec (section 4.1, steps 1 to 7): generate(bound) as the
specification words it, with threshold = 2^64 mod bound. Written only to be
compared with ndl_rand, the definition taken from the source. -/
def spec_generate (bound : Nat) (seq : Nat → Nat) (fuel : Nat) :
    Option (Except RandError Nat) :=
  if bound = 0 then some (Except.error RandError.mk)
  else
    let s := seq 0 % 2 ^ 64
    let p := s * bound
    let low := p % 2 ^ 64
    let high := p / 2 ^ 64
    if bound ≤ low then some (Except.ok high)
    else
      (spec_loop bound (2 ^ 64 % bound) seq fuel 1 low high).map Except.ok

/-- The scripted source separating ndl_rand from the specified algorithm:
first draw 0, every later draw 2^63. -/
def seqC7 : Nat → Nat := fun i => if i = 0 then 0 else 2 ^ 63

/-- The wrapping negation of a u64 bit pattern, seen through i64, is either
the exact integer negation or (only at 2^63) the value itself. -/
theorem i64Neg_toI64_cases (max : Nat) (h1 : 0 < max) (h2 : max < 2 ^ 64) :
    i64Neg (toI64 max) = -(toI64 max) ∨ i64Neg (toI64 max) = toI64 max := by
  unfold i64Neg wrapI64 toI64
  split <;> omega

/-- The threshold the code computes is 0 for every valid bound: the signed
remainder of the wrapped negation of max by max always vanishes. -/
theorem threshU64_eq_zero (max : Nat) (h1 : 0 < max) (h2 : max < 2 ^ 64) :
    threshU64 max = 0 := by
  have hne : toI64 max ≠ 0 := by
    unfold toI64
    split <;> omega
  have hdvd : toI64 max ∣ i64Neg (toI64 max) := by
    rcases i64Neg_toI64_cases max h1 h2 with h | h
    · rw [h]
      exact Int.dvd_neg.mpr dvd_rfl
    · rw [h]
  unfold threshU64 i64Rem
  rw [Int.tmod_eq_zero_of_dvd hdvd]
  rfl

/-- With threshold 0 the loop guard fails at once: the loop returns its input
dividend without drawing, whatever the fuel. -/
theorem ndl_loop_zero_t (max : Nat) (seq : Nat → Nat) (fuel i d : Nat) :
    ndl_loop max 0 seq fuel i d = some (d, i) := by
  cases fuel <;> simp [ndl_loop]

/-- Closed form of ndl_rand for every valid bound: exactly one sample is
drawn and the high 64 bits of its widening product with max are returned. -/
theorem ndl_rand_eq (max : Nat) (seq : Nat → Nat) (fuel : Nat)
    (h1 : 0 < max) (h2 : max < 2 ^ 64) :
    ndl_rand max seq fuel =
      some (Except.ok (((seq 0 % 2 ^ 64) * max) / 2 ^ 64), 1) := by
  have h0 : max ≠ 0 := by omega
  have hs : seq 0 % 2 ^ 64 < 2 ^ 64 := Nat.mod_lt _ (by norm_num)
  have hp : (seq 0 % 2 ^ 64) * max < 2 ^ 64 * 2 ^ 64 :=
    Nat.mul_lt_mul_of_lt_of_lt hs h2
  have hhigh : ((seq 0 % 2 ^ 64) * max) / 2 ^ 64 < 2 ^ 64 :=
    Nat.div_lt_of_lt_mul hp
  have hcast_low :
      cast_u128_to_u64 ((seq 0 % 2 ^ 64) * max) = ((seq 0 % 2 ^ 64) * max) % 2 ^ 64 :=
    Nat.and_pow_two_sub_one_eq_mod _ 64
  have hcast_high :
      cast_u128_to_u64 (((seq 0 % 2 ^ 64) * max) >>> 64) =
        ((seq 0 % 2 ^ 64) * max) / 2 ^ 64 := by
    rw [Nat.shiftRight_eq_div_pow, cast_u128_to_u64,
      Nat.and_pow_two_sub_one_eq_mod, Nat.mod_eq_of_lt hhigh]
  unfold ndl_rand
  rw [if_neg h0]
  simp only [hcast_low, hcast_high, threshU64_eq_zero max h1 h2, ndl_loop_zero_t]
  split <;> simp [hcast_high]

/-- C1: for every bound > 0 and every scripted source, a successful result of
ndl_rand is strictly below the bound. -/
theorem C1_range_containment (max : Nat) (seq : Nat → Nat) (fuel v i : Nat)
    (h1 : 0 < max) (h2 : max < 2 ^ 64)
    (h : ndl_rand max seq fuel = some (Except.ok v, i)) : v < max := by
  rw [ndl_rand_eq max seq fuel h1 h2] at h
  simp only [Option.some.injEq, Prod.mk.injEq, Except.ok.injEq] at h
  obtain ⟨hv, -⟩ := h
  subst hv
  have hs : seq 0 % 2 ^ 64 < 2 ^ 64 := Nat.mod_lt _ (by norm_num)
  exact Nat.div_lt_of_lt_mul (mul_lt_mul_of_pos_right hs h1)

/-- Witness for C1 at bound 5, the constant source 3, fuel 0. -/
theorem C1_range_containment_witness : (0 : Nat) < 5 :=
  C1_range_containment 5 (fun _ => 3) 0 0 1 (by decide) (by decide) (by rfl)

/-- C2: the claim fails on the code. At bound 3 the bias branch is reachable
(a first draw of 0 gives low 0 < 3), the threshold the code computes there is
0, yet 2^64 mod 3 = 1: the signed remainder in the source does not compute
the specified threshold. -/
theorem C2_threshold_not_two_pow_mod :
    ndl_rand 3 (fun _ => 0) 0 = some (Except.ok 0, 1) ∧
    cast_u128_to_u64 ((0 % 2 ^ 64) * 3) < 3 ∧
    threshU64 3 = 0 ∧ 2 ^ 64 % 3 = 1 :=
  ⟨rfl, by decide, threshU64_eq_zero 3 (by decide) (by decide), by decide⟩

/-- C3: for every bound below 2^63 the computed threshold is 0, exactly one
sample is drawn, and the high 64 bits of its product are returned. -/
theorem C3_single_draw (max : Nat) (seq : Nat → Nat) (fuel : Nat)
    (h1 : 0 < max) (h2 : max < 2 ^ 63) :
    ndl_rand max seq fuel =
      some (Except.ok (((seq 0 % 2 ^ 64) * max) / 2 ^ 64), 1) ∧
    threshU64 max = 0 := by
  have h4 : max < 2 ^ 64 := by omega
  exact ⟨ndl_rand_eq max seq fuel h1 h4, threshU64_eq_zero max h1 h4⟩

/-- Witness for C3 at bound 7, the constant source 11, fuel 0. -/
theorem C3_single_draw_witness :
    ndl_rand 7 (fun _ => 11) 0 =
      some (Except.ok (((11 % 2 ^ 64) * 7) / 2 ^ 64), 1) ∧
    threshU64 7 = 0 :=
  C3_single_draw 7 (fun _ => 11) 0 (by decide) (by decide)

/-- C4: at bound 0, ndl_rand returns the error with zero samples drawn. -/
theorem C4_zero_bound (seq : Nat → Nat) (fuel : Nat) :
    ndl_rand 0 seq fuel = some (Except.error RandError.mk, 0) := rfl

/-- C5: a successful result is the high 64 bits of the widening product of
the last drawn sample with the bound; when the first low part is at least
the bound, that sample is the first one and it is drawn alone. -/
theorem C5_returns_high_of_last (max : Nat) (seq : Nat → Nat) (fuel v i : Nat)
    (h1 : 0 < max) (h2 : max < 2 ^ 64)
    (h : ndl_rand max seq fuel = some (Except.ok v, i)) :
    0 < i ∧ v = ((seq (i - 1) % 2 ^ 64) * max) / 2 ^ 64 ∧
      (max ≤ ((seq 0 % 2 ^ 64) * max) % 2 ^ 64 →
        i = 1 ∧ v = ((seq 0 % 2 ^ 64) * max) / 2 ^ 64) := by
  rw [ndl_rand_eq max seq fuel h1 h2] at h
  simp only [Option.some.injEq, Prod.mk.injEq, Except.ok.injEq] at h
  obtain ⟨hv, hi⟩ := h
  subst hi
  exact ⟨Nat.one_pos, by simpa using hv.symm, fun _ => ⟨rfl, hv.symm⟩⟩

/-- Witness for C5 at bound 5, the constant source 3, fuel 0. -/
theorem C5_returns_high_of_last_witness :
    0 < 1 ∧ (0 : Nat) = ((3 % 2 ^ 64) * 5) / 2 ^ 64 ∧
      (5 ≤ ((3 % 2 ^ 64) * 5) % 2 ^ 64 →
        1 = 1 ∧ (0 : Nat) = ((3 % 2 ^ 64) * 5) / 2 ^ 64) :=
  C5_returns_high_of_last 5 (fun _ => 3) 0 0 1 (by decide) (by decide) (by rfl)

/-- C6: ndl_rand always yields a result for a u64 bound, and that result is
an error exactly when the bound is 0. -/
theorem C6_error_iff_zero_bound (max : Nat) (seq : Nat → Nat) (fuel : Nat)
    (h2 : max < 2 ^ 64) :
    (∃ r, ndl_rand max seq fuel = some r) ∧
    ∀ r, ndl_rand max seq fuel = some r →
      ((∃ e, r.1 = Except.error e) ↔ max = 0) := by
  by_cases h0 : max = 0
  · subst h0
    refine ⟨⟨(Except.error RandError.mk, 0), rfl⟩, ?_⟩
    intro r hr
    have h4 : ndl_rand 0 seq fuel = some (Except.error RandError.mk, 0) := rfl
    rw [h4, Option.some.injEq] at hr
    subst hr
    exact iff_of_true ⟨RandError.mk, rfl⟩ rfl
  · have he := ndl_rand_eq max seq fuel (Nat.pos_of_ne_zero h0) h2
    refine ⟨⟨_, he⟩, ?_⟩
    intro r hr
    rw [he, Option.some.injEq] at hr
    subst hr
    simp [h0]

/-- Witness for C6 at bound 3, the constant source 0, fuel 0. -/
theorem C6_error_iff_zero_bound_witness :
    (∃ r, ndl_rand 3 (fun _ => 0) 0 = some r) ∧
    ∀ r, ndl_rand 3 (fun _ => 0) 0 = some r →
      ((∃ e, r.1 = Except.error e) ↔ 3 = 0) :=
  C6_error_iff_zero_bound 3 (fun _ => 0) 0 (by decide)

/-- C7: the run on a scripted source is deterministic, but it does not match
the specified algorithm: at bound 3 with draws 0 then 2^63, ndl_rand returns
0 from the single first sample while the spec algorithm redraws once and
returns 1. -/
theorem C7_code_spec_divergence :
    ndl_rand 3 seqC7 1 = some (Except.ok 0, 1) ∧
    spec_generate 3 seqC7 1 = some (Except.ok 1) :=
  ⟨rfl, rfl⟩

/-- C8: the u128 to u64 truncating cast agrees with reduction mod 2^64 on
every 128-bit value at least 2^64. -/
theorem C8_cast_is_mod (r : Nat) (h1 : 2 ^ 64 ≤ r) (h2 : r < 2 ^ 128) :
    cast_u128_to_u64 r = r % 2 ^ 64 :=
  Nat.and_pow_two_sub_one_eq_mod r 64

/-- Witness for C8 at the boundary value 2^128 - 1. -/
theorem C8_cast_is_mod_witness :
    cast_u128_to_u64 (2 ^ 128 - 1) = (2 ^ 128 - 1) % 2 ^ 64 :=
  C8_cast_is_mod (2 ^ 128 - 1) (by decide) (by decide)

/-- C9: for every nonzero u64 value x, the unsigned negation 2^64 - x equals
the bit pattern of the wrapping signed negation of x reinterpreted as u64. -/
theorem C9_unsigned_negation (x : Nat) (h1 : 0 < x) (h2 : x < 2 ^ 64) :
    2 ^ 64 - x = toU64 (i64Neg (toI64 x)) := by
  unfold toU64 i64Neg wrapI64 toI64
  split <;> omega

/-- Witness for C9 at the boundary value 2^63. -/
theorem C9_unsigned_negation_witness :
    2 ^ 64 - 2 ^ 63 = toU64 (i64Neg (toI64 (2 ^ 63))) :=
  C9_unsigned_negation (2 ^ 63) (by decide) (by decide)

/-- C10: the claim fails on the code. At bound 2^63 the bias branch is
reachable (a zero draw gives low 0 < 2^63), and there the exact negation of
the reinterpreted bound is 2^63, outside the i64 range: the signed negation
overflows. -/
theorem C10_signed_negation_overflow :
    cast_u128_to_u64 ((0 % 2 ^ 64) * 2 ^ 63) < 2 ^ 63 ∧
    ¬ i64InRange (-(toI64 (2 ^ 63))) :=
  ⟨by decide, by decide⟩
